import Mathlib

/-!
Shallow embedding of the hole-game repository (three.js + cannon-es, TypeScript).

Numbers of the source (JS `number`) are modelled as real numbers.  The
embedded functions mirror, statement by statement, the source files
`src/objects/Hole.ts`, `src/World.ts` and the game loop file defining
`Game.animate`.  Vector operations (`length`, `normalize`, `setLength`,
`addScaledVector`) follow the three.js implementations; `normalize` on the
zero vector yields the zero vector both in three.js (which divides by
`length() || 1`) and here (division by zero is zero in Lean's reals).
The cannon-es world and the three.js scene are modelled as lists of object
identifiers; `removeBody` / `Scene.remove` are `List.erase`, which, exactly
as in the libraries, is a no-op when the element is absent.
-/

namespace HoleGame

noncomputable section

/-- A 3D position (three.js `Vector3` / cannon-es `Vec3`). -/
structure Vec3 where
  x : ℝ
  y : ℝ
  z : ℝ

/-- three.js `Vector2.length`: the Euclidean magnitude of a 2D vector. -/
def length2 (v : ℝ × ℝ) : ℝ := Real.sqrt (v.1 * v.1 + v.2 * v.2)

/-- three.js `Vector2.normalize` (on the zero vector the result is the zero
vector, as in three.js where the divisor is `length() || 1`). -/
def normalize2 (v : ℝ × ℝ) : ℝ × ℝ := (v.1 / length2 v, v.2 / length2 v)

/-- Directional input state: each flag merges the arrow key and its WASD
alias, as read from the `keys` map in `Hole.handleInput`. -/
structure Keys where
  up : Bool
  down : Bool
  left : Bool
  right : Bool

/-- No directional key is held. -/
def noKeys : Keys := ⟨false, false, false, false⟩

/-- cannon-es body type; the four ground boxes are created KINEMATIC. -/
inductive BodyType where
  | kinematic
  | dynamic
deriving DecidableEq

/-- One of the four ground boxes around the hole (a cannon-es `Body`). -/
structure RingBody where
  btype : BodyType
  pos : Vec3

-- Constants of `Hole.ts`.

/-- `private maxSpeed = 8` -/
def maxSpeed : ℝ := 8

/-- `private acceleration = 40` -/
def accelerationConst : ℝ := 40

/-- `private friction = 20` -/
def friction : ℝ := 20

/-- `const objRadius = 0.5` in `checkSwallow` -/
def objRadius : ℝ := 1 / 2

/-- `private radius: number = 1.5` (initial value) -/
def initialRadius : ℝ := 3 / 2

/-- `const huge = 50` in `updatePhysicsHolePos` -/
def hugeConst : ℝ := 50

/-- `const groundSize = 100` in `setupPhysics` -/
def groundSize : ℝ := 100

/-- `const groundThickness = 1` -/
def groundThickness : ℝ := 1

/-- The state owned by the `Hole` class: the group position (x, z), the
radius, the current speed, the four kinematic ground bodies, and the
visual primitives (render orders and radii) created in `setupVisuals`. -/
structure Hole where
  posX : ℝ
  posZ : ℝ
  radius : ℝ
  currentSpeed : ℝ × ℝ
  groundBodies : Fin 4 → RingBody
  maskRenderOrder : ℤ
  groundRenderOrder : ℤ
  interiorRenderOrder : ℤ
  maskRadius : ℝ
  interiorRadius : ℝ

/-- The four target positions computed in `Hole.updatePhysicsHolePos`:
right (+X), left (-X), up (-Z), down (+Z), with `yStrata = -groundThickness/2`. -/
def ringTargets (x z r : ℝ) : Fin 4 → Vec3 := fun i =>
  match i with
  | 0 => ⟨x + r + hugeConst, -(groundThickness / 2), z⟩
  | 1 => ⟨x - r - hugeConst, -(groundThickness / 2), z⟩
  | 2 => ⟨x, -(groundThickness / 2), z - r - hugeConst⟩
  | 3 => ⟨x, -(groundThickness / 2), z + r + hugeConst⟩

/-- `Hole.updatePhysicsHolePos`: re-positions the 4 ground bodies from the
current hole position and radius (body types are untouched). -/
def Hole.updatePhysicsHolePos (h : Hole) : Hole :=
  { h with groundBodies := fun i =>
      { btype := (h.groundBodies i).btype
        pos := ringTargets h.posX h.posZ h.radius i } }

/-- `Hole.handleInput`: build the input vector from the key flags, normalize
it when non-zero, then either accelerate along it or apply friction, cap the
speed at `maxSpeed`, and integrate the position. -/
def Hole.handleInput (k : Keys) (dt : ℝ) (h : Hole) : Hole :=
  let ix : ℝ := (if k.left then -1 else 0) + (if k.right then 1 else 0)
  let iy : ℝ := (if k.up then -1 else 0) + (if k.down then 1 else 0)
  let inp : ℝ × ℝ := if 0 < length2 (ix, iy) then normalize2 (ix, iy) else (ix, iy)
  let v := h.currentSpeed
  let v1 : ℝ × ℝ :=
    if 0 < length2 inp then
      (v.1 + inp.1 * accelerationConst * dt, v.2 + inp.2 * accelerationConst * dt)
    else
      let frictionStep := friction * dt
      if length2 v < frictionStep then (0, 0)
      else (v.1 - v.1 / length2 v * frictionStep, v.2 - v.2 / length2 v * frictionStep)
  let v2 : ℝ × ℝ :=
    if maxSpeed < length2 v1 then
      (v1.1 * (maxSpeed / length2 v1), v1.2 * (maxSpeed / length2 v1))
    else v1
  { h with currentSpeed := v2
           posX := h.posX + v2.1 * dt
           posZ := h.posZ + v2.2 * dt }

/-- `Hole.update(dt)`: `handleInput` then `updatePhysicsHolePos`. -/
def Hole.update (k : Keys) (dt : ℝ) (h : Hole) : Hole :=
  (h.handleInput k dt).updatePhysicsHolePos

/-- The `Hole` constructor: group at the origin, radius 1.5, zero speed,
`setupVisuals` (mask renderOrder -1, ground default 0, interior 1, both
hole visuals built with the current radius), `setupPhysics` (4 kinematic
bodies, then `updatePhysicsHolePos`). -/
def Hole.init : Hole :=
  Hole.updatePhysicsHolePos
    { posX := 0
      posZ := 0
      radius := initialRadius
      currentSpeed := (0, 0)
      groundBodies := fun _ => { btype := BodyType.kinematic, pos := ⟨0, 0, 0⟩ }
      maskRenderOrder := -1
      groundRenderOrder := 0
      interiorRenderOrder := 1
      maskRadius := initialRadius
      interiorRadius := initialRadius }

/-- World-level state: the hole, the position of each object (the mesh
position, which `World.update` keeps in sync with the body position), the
set of bodies in the cannon-es world, the set of meshes in the scene, and
the `objects` tracking list of `World`.  Objects are identified by natural
numbers. -/
structure WorldState where
  hole : Hole
  objPos : ℕ → Vec3
  bodies : List ℕ
  scene : List ℕ
  objects : List ℕ

/-- The horizontal distance `dist = Math.sqrt(dx*dx + dz*dz)` computed in
`Hole.checkSwallow` between object `i` and the hole centre. -/
def horizDist (w : WorldState) (i : ℕ) : ℝ :=
  Real.sqrt (((w.objPos i).x - w.hole.posX) * ((w.objPos i).x - w.hole.posX) +
    ((w.objPos i).z - w.hole.posZ) * ((w.objPos i).z - w.hole.posZ))

/-- The swallow condition of `Hole.checkSwallow`: the object is fully
horizontally inside the hole (strictly) and has fallen below y = -5. -/
def swallowCond (w : WorldState) (i : ℕ) : Prop :=
  horizDist w i + objRadius < w.hole.radius ∧ (w.objPos i).y < -5

open Classical in
/-- `Hole.checkSwallow(mesh, body)`: when the object is fully inside the
hole and below the depth threshold, remove the body from the physics world
and the mesh from the scene (both removals are no-ops when absent). -/
def checkSwallow (w : WorldState) (i : ℕ) : WorldState :=
  if horizDist w i + objRadius < w.hole.radius then
    if (w.objPos i).y < -5 then
      { w with bodies := w.bodies.erase i, scene := w.scene.erase i }
    else w
  else w

/-- `this.physicsWorld.step(1/60, dt, 3)`: the cannon-es solver advances the
dynamic objects.  It is modelled as an arbitrary evolution `f` of the object
positions; it never moves the hole nor the kinematic ground bodies (their
velocities are always zero). -/
def stepPhase (f : ℝ → (ℕ → Vec3) → (ℕ → Vec3)) (dt : ℝ) (w : WorldState) : WorldState :=
  { w with objPos := f dt w.objPos }

/-- The per-object loop of `World.update`: sync each mesh to its body (the
single `objPos` map already reflects this) and call `checkSwallow` on each
tracked object. -/
def swallowPhase (w : WorldState) : WorldState :=
  List.foldl checkSwallow w w.objects

/-- `World.update(dt)`: step physics, sync meshes and check swallowing,
drop tracked objects whose mesh has no parent any more, then `hole.update(dt)`. -/
def World.update (f : ℝ → (ℕ → Vec3) → (ℕ → Vec3)) (k : Keys) (dt : ℝ)
    (w : WorldState) : WorldState :=
  let w1 := stepPhase f dt w
  let w2 := swallowPhase w1
  let w3 := { w2 with objects := w2.objects.filter (fun i => w2.scene.contains i) }
  { w3 with hole := Hole.update k dt w3.hole }

/-- The `World` constructor: fresh `Hole`, and the spawned objects (ids and
positions are parameters, since spawning is randomized) registered in the
physics world, the scene, and the tracking list. -/
def World.init (op : ℕ → Vec3) (ids : List ℕ) : WorldState :=
  { hole := Hole.init, objPos := op, bodies := ids, scene := ids, objects := ids }

/-- Run the per-animation-frame `World.update` over a list of frames, each
with its key state and delta time. -/
def applyFrames (f : ℝ → (ℕ → Vec3) → (ℕ → Vec3)) (frames : List (Keys × ℝ))
    (w : WorldState) : WorldState :=
  List.foldl (fun s kd => World.update f kd.1 kd.2 s) w frames

/-- The ring placement is consistent with the hole state: each of the four
ground bodies sits exactly at the position `updatePhysicsHolePos` derives
from the current hole position and radius. -/
def ringsConsistent (h : Hole) : Prop :=
  ∀ i, (h.groundBodies i).pos = ringTargets h.posX h.posZ h.radius i

/-- An observable operation on the hole: a frame update or a swallow check. -/
inductive Ev where
  | update (k : Keys) (dt : ℝ)
  | swallow (i : ℕ)

/-- Apply one operation to the world state. -/
def applyEv (w : WorldState) : Ev → WorldState
  | Ev.update k dt => { w with hole := Hole.update k dt w.hole }
  | Ev.swallow i => checkSwallow w i

/-- Apply a sequence of update / checkSwallow calls. -/
def applyEvents (evs : List Ev) (w : WorldState) : WorldState :=
  List.foldl applyEv w evs

/-- The delta-time computation of `Game.animate`:
`Math.min((currentTime - this.lastTime) / 1000, 0.1)`; the result is the
value forwarded to `World.update`. -/
def animateDelta (currentTime lastTime : ℝ) : ℝ :=
  min ((currentTime - lastTime) / 1000) (1 / 10)

-- Concrete states used by witnesses.

/-- A world with one object, id 0, resting at the hole centre 6 units deep. -/
def wDeep : WorldState :=
  World.init (fun _ => ⟨0, -6, 0⟩) [0]

/-- A world whose lists are empty (object 0 already removed everywhere). -/
def wEmpty : WorldState :=
  World.init (fun _ => ⟨0, -6, 0⟩) []

/-- A hole moving at full speed 8 along +x. -/
def holeAtMax : Hole :=
  { Hole.init with currentSpeed := (8, 0) }

/-- A trivial solver for witnesses: object positions do not change. -/
def idSolver : ℝ → (ℕ → Vec3) → (ℕ → Vec3) := fun _ p => p

/-- A run of input-free frames: `Hole.update` with no key held, once per
listed delta time. -/
def applyNoInput (dts : List ℝ) (h : Hole) : Hole :=
  List.foldl (fun s d => Hole.update noKeys d s) h dts

/-- The fields of `Hole` that no update ever touches, bundled. -/
def holeConsts (h : Hole) : ℝ × ℤ × ℤ × ℤ × ℝ × ℝ :=
  (h.radius, h.maskRenderOrder, h.groundRenderOrder, h.interiorRenderOrder,
    h.maskRadius, h.interiorRadius)

end

section Lemmas

theorem length2_nonneg (v : ℝ × ℝ) : 0 ≤ length2 v := Real.sqrt_nonneg _

theorem length2_zero_pair : length2 ((0 : ℝ), (0 : ℝ)) = 0 := by
  unfold length2; norm_num

theorem length2_zeroVec : length2 (0 : ℝ × ℝ) = 0 := by
  unfold length2; norm_num

theorem length2_mul (v : ℝ × ℝ) (c : ℝ) :
    length2 (v.1 * c, v.2 * c) = length2 v * |c| := by
  unfold length2
  have h : v.1 * c * (v.1 * c) + v.2 * c * (v.2 * c)
      = (v.1 * v.1 + v.2 * v.2) * (c * c) := by ring
  rw [h, Real.sqrt_mul (add_nonneg (mul_self_nonneg _) (mul_self_nonneg _)),
    Real.sqrt_mul_self_eq_abs]

theorem length2_eq_zero {v : ℝ × ℝ} (h : length2 v = 0) : v = (0, 0) := by
  unfold length2 at h
  have h0 : v.1 * v.1 + v.2 * v.2 = 0 :=
    (Real.sqrt_eq_zero (add_nonneg (mul_self_nonneg _) (mul_self_nonneg _))).mp h
  have h1 : v.1 * v.1 = 0 :=
    le_antisymm (by nlinarith [mul_self_nonneg v.2]) (mul_self_nonneg v.1)
  have h2 : v.2 * v.2 = 0 :=
    le_antisymm (by nlinarith [mul_self_nonneg v.1]) (mul_self_nonneg v.2)
  have e1 : v.1 = 0 := mul_self_eq_zero.mp h1
  have e2 : v.2 = 0 := mul_self_eq_zero.mp h2
  exact Prod.ext_iff.mpr ⟨e1, e2⟩

theorem checkSwallow_hole (w : WorldState) (i : ℕ) :
    (checkSwallow w i).hole = w.hole := by
  unfold checkSwallow; split_ifs <;> rfl

theorem checkSwallow_objPos (w : WorldState) (i : ℕ) :
    (checkSwallow w i).objPos = w.objPos := by
  unfold checkSwallow; split_ifs <;> rfl

theorem swallowPhase_hole (w : WorldState) :
    (swallowPhase w).hole = w.hole := by
  suffices H : ∀ os w0, (List.foldl checkSwallow w0 os).hole = w0.hole from H _ _
  intro os
  induction os with
  | nil => intro w0; rfl
  | cons a os ih =>
      intro w0
      rw [List.foldl_cons, ih, checkSwallow_hole]

theorem World.update_hole (f : ℝ → (ℕ → Vec3) → (ℕ → Vec3)) (k : Keys)
    (dt : ℝ) (w : WorldState) :
    (World.update f k dt w).hole = Hole.update k dt w.hole := by
  simp only [World.update, stepPhase]
  rw [swallowPhase_hole]

theorem Hole.update_holeConsts (k : Keys) (dt : ℝ) (h : Hole) :
    holeConsts (Hole.update k dt h) = holeConsts h := rfl

theorem applyFrames_holeConsts (f : ℝ → (ℕ → Vec3) → (ℕ → Vec3)) :
    ∀ (frames : List (Keys × ℝ)) (w : WorldState),
      holeConsts (applyFrames f frames w).hole = holeConsts w.hole := by
  intro frames
  induction frames with
  | nil => intro w; rfl
  | cons kd frames ih =>
      intro w
      have step : applyFrames f (kd :: frames) w
          = applyFrames f frames (World.update f kd.1 kd.2 w) := rfl
      rw [step, ih, World.update_hole, Hole.update_holeConsts]

theorem applyEv_holeConsts (w : WorldState) (e : Ev) :
    holeConsts (applyEv w e).hole = holeConsts w.hole := by
  cases e with
  | update k dt => exact Hole.update_holeConsts k dt w.hole
  | swallow i => rw [applyEv, checkSwallow_hole]

theorem applyEvents_holeConsts :
    ∀ (evs : List Ev) (w : WorldState),
      holeConsts (applyEvents evs w).hole = holeConsts w.hole := by
  intro evs
  induction evs with
  | nil => intro w; rfl
  | cons e evs ih =>
      intro w
      have step : applyEvents (e :: evs) w = applyEvents evs (applyEv w e) := rfl
      rw [step, ih, applyEv_holeConsts]

theorem checkSwallow_not_mem (w : WorldState) (i : ℕ)
    (hb : i ∉ w.bodies) (hs : i ∉ w.scene) : checkSwallow w i = w := by
  unfold checkSwallow
  split_ifs with h1 h2
  · rw [List.erase_of_not_mem hb, List.erase_of_not_mem hs]
  · rfl
  · rfl

theorem checkSwallow_twice (w : WorldState) (i : ℕ)
    (hb : w.bodies.Nodup) (hs : w.scene.Nodup) :
    checkSwallow (checkSwallow w i) i = checkSwallow w i := by
  by_cases h1 : horizDist w i + objRadius < w.hole.radius
  · by_cases h2 : (w.objPos i).y < -5
    · have hw : checkSwallow w i
          = { w with bodies := w.bodies.erase i, scene := w.scene.erase i } := by
        unfold checkSwallow
        rw [if_pos h1, if_pos h2]
      rw [hw]
      apply checkSwallow_not_mem
      · exact fun hmem => ((hb.mem_erase_iff.1 hmem).1 rfl)
      · exact fun hmem => ((hs.mem_erase_iff.1 hmem).1 rfl)
    · have hw : checkSwallow w i = w := by
        unfold checkSwallow
        rw [if_pos h1, if_neg h2]
      rw [hw]
      exact hw
  · have hw : checkSwallow w i = w := by
      unfold checkSwallow
      rw [if_neg h1]
    rw [hw]
    exact hw

theorem ringsConsistent_update (k : Keys) (dt : ℝ) (h : Hole) :
    ringsConsistent (Hole.update k dt h) := fun _ => rfl

theorem ringsConsistent_applyFrames (f : ℝ → (ℕ → Vec3) → (ℕ → Vec3)) :
    ∀ (frames : List (Keys × ℝ)) (w : WorldState),
      ringsConsistent w.hole → ringsConsistent ((applyFrames f frames w).hole) := by
  intro frames
  induction frames with
  | nil => intro w hw; exact hw
  | cons kd frames ih =>
      intro w _
      have step : applyFrames f (kd :: frames) w
          = applyFrames f frames (World.update f kd.1 kd.2 w) := rfl
      rw [step]
      apply ih
      rw [World.update_hole]
      exact ringsConsistent_update kd.1 kd.2 w.hole

theorem cap_le_max (v1 : ℝ × ℝ) :
    length2 (if maxSpeed < length2 v1
      then (v1.1 * (maxSpeed / length2 v1), v1.2 * (maxSpeed / length2 v1))
      else v1) ≤ maxSpeed := by
  split_ifs with hc
  · have hL : 0 < length2 v1 := lt_trans (by norm_num [maxSpeed]) hc
    rw [length2_mul, abs_of_nonneg (div_nonneg (by norm_num [maxSpeed]) hL.le),
      mul_comm, div_mul_cancel₀ _ (ne_of_gt hL)]
  · exact le_of_not_lt hc

theorem handleInput_speed_le (k : Keys) (dt : ℝ) (h : Hole) :
    length2 (Hole.handleInput k dt h).currentSpeed ≤ maxSpeed := by
  unfold Hole.handleInput
  dsimp only
  exact cap_le_max _

theorem handleInput_noKeys (dt : ℝ) (h : Hole) :
    (Hole.handleInput noKeys dt h).currentSpeed =
      (let v := h.currentSpeed
       let v1 : ℝ × ℝ :=
         if length2 v < friction * dt then (0, 0)
         else (v.1 - v.1 / length2 v * (friction * dt),
               v.2 - v.2 / length2 v * (friction * dt))
       if maxSpeed < length2 v1 then
         (v1.1 * (maxSpeed / length2 v1), v1.2 * (maxSpeed / length2 v1))
       else v1) := by
  unfold Hole.handleInput
  simp [noKeys, length2_zero_pair, length2_zeroVec]

theorem update_noKeys_speed (h : Hole) (dt : ℝ) (hdt : 0 ≤ dt)
    (hle : length2 h.currentSpeed ≤ maxSpeed) :
    (length2 h.currentSpeed < friction * dt →
        (Hole.update noKeys dt h).currentSpeed = (0, 0))
    ∧ (friction * dt ≤ length2 h.currentSpeed →
        length2 (Hole.update noKeys dt h).currentSpeed
          = length2 h.currentSpeed - friction * dt)
    ∧ ∃ c : ℝ, 0 ≤ c ∧ (Hole.update noKeys dt h).currentSpeed
          = (c * h.currentSpeed.1, c * h.currentSpeed.2) := by
  have hspd : (Hole.update noKeys dt h).currentSpeed
      = (Hole.handleInput noKeys dt h).currentSpeed := rfl
  rw [hspd, handleInput_noKeys]
  dsimp only
  set V := h.currentSpeed with hV
  set L := length2 V with hL
  set fs := friction * dt with hfs
  have hL0 : 0 ≤ L := by rw [hL]; exact length2_nonneg V
  have hfs0 : 0 ≤ fs := by rw [hfs]; exact mul_nonneg (by norm_num [friction]) hdt
  by_cases hcase : L < fs
  · rw [if_pos hcase, if_neg (by rw [length2_zero_pair]; norm_num [maxSpeed])]
    refine ⟨fun _ => rfl, fun hge => absurd hcase (not_lt.mpr hge), 0, le_refl 0, ?_⟩
    norm_num
  · have hfsL : fs ≤ L := not_lt.mp hcase
    rw [if_neg hcase]
    have hv1 : ((V.1 - V.1 / L * fs, V.2 - V.2 / L * fs) : ℝ × ℝ)
        = (V.1 * (1 - fs / L), V.2 * (1 - fs / L)) := by
      rw [Prod.mk.injEq]
      constructor <;> ring
    have hc0 : 0 ≤ 1 - fs / L := by
      rcases eq_or_lt_of_le hL0 with h0 | h0
      · rw [← h0, div_zero]
        norm_num
      · have hdiv : fs / L ≤ 1 := (div_le_one h0).mpr hfsL
        linarith
    have hlen : length2 (V.1 * (1 - fs / L), V.2 * (1 - fs / L)) = L - fs := by
      rw [length2_mul, ← hL, abs_of_nonneg hc0]
      rcases eq_or_lt_of_le hL0 with h0 | h0
      · have hfz : fs = 0 := le_antisymm (le_trans hfsL h0.symm.le) hfs0
        rw [← h0, hfz]
        norm_num
      · field_simp
    rw [hv1]
    rw [if_neg (by rw [hlen]; exact not_lt.mpr (by linarith))]
    refine ⟨fun hlt => absurd hlt hcase, fun _ => hlen, 1 - fs / L, hc0, ?_⟩
    rw [Prod.mk.injEq]
    constructor <;> ring

theorem update_noKeys_length (h : Hole) (d : ℝ) (hd : 0 ≤ d)
    (hle : length2 h.currentSpeed ≤ maxSpeed) :
    length2 (Hole.update noKeys d h).currentSpeed
      = max 0 (length2 h.currentSpeed - friction * d) := by
  have hstep := update_noKeys_speed h d hd hle
  by_cases hc : length2 h.currentSpeed < friction * d
  · rw [hstep.1 hc, length2_zero_pair]
    exact (max_eq_left (by linarith)).symm
  · rw [hstep.2.1 (not_lt.mp hc)]
    exact (max_eq_right (by linarith [not_lt.mp hc])).symm

theorem applyNoInput_length :
    ∀ (dts : List ℝ) (h : Hole), (∀ d ∈ dts, 0 ≤ d) →
      length2 h.currentSpeed ≤ maxSpeed →
      length2 (applyNoInput dts h).currentSpeed
        = max 0 (length2 h.currentSpeed - friction * dts.sum) := by
  intro dts
  induction dts with
  | nil =>
      intro h _ _
      have : applyNoInput [] h = h := rfl
      rw [this, List.sum_nil, mul_zero, sub_zero]
      exact (max_eq_right (length2_nonneg _)).symm
  | cons d dts ih =>
      intro h hpos hle
      have hd : 0 ≤ d := hpos d (by simp)
      have hfd : 0 ≤ friction * d := mul_nonneg (by norm_num [friction]) hd
      have hfs : 0 ≤ friction * dts.sum :=
        mul_nonneg (by norm_num [friction])
          (List.sum_nonneg (fun x hx => hpos x (by simp [hx])))
      have hlen1 := update_noKeys_length h d hd hle
      have hle1 : length2 (Hole.update noKeys d h).currentSpeed ≤ maxSpeed := by
        rw [hlen1]
        apply max_le (by norm_num [maxSpeed])
        linarith
      have happly : applyNoInput (d :: dts) h
          = applyNoInput dts (Hole.update noKeys d h) := rfl
      rw [happly, ih (Hole.update noKeys d h) (fun x hx => hpos x (by simp [hx])) hle1,
        hlen1, List.sum_cons]
      rcases le_or_lt 0 (length2 h.currentSpeed - friction * d) with hnn | hneg
      · rw [max_eq_right hnn]
        congr 1
        ring
      · rw [max_eq_left hneg.le, zero_sub,
          max_eq_left (by linarith), max_eq_left (by nlinarith)]

end Lemmas

section Claims

/-- C2: after every `Hole.update`, the four kinematic ground ring segments
sit at the hole centre plus/minus (radius + halfExtent) along their axis:
the +X body at x + radius + 50, the -X body at x - radius - 50, the -Z body
at z - radius - 50, the +Z body at z + radius + 50 (all at y = -1/2), where
the half extent 50 is half the segment's full extent (`groundSize = 100`);
so the inner edges form a square opening of half-width exactly the current
radius around the current hole position. -/
theorem update_ring_positions (h : Hole) (k : Keys) (dt : ℝ) :
    ((Hole.update k dt h).groundBodies 0).pos
        = ⟨(Hole.update k dt h).posX + (Hole.update k dt h).radius + hugeConst,
            -(groundThickness / 2), (Hole.update k dt h).posZ⟩
    ∧ ((Hole.update k dt h).groundBodies 1).pos
        = ⟨(Hole.update k dt h).posX - (Hole.update k dt h).radius - hugeConst,
            -(groundThickness / 2), (Hole.update k dt h).posZ⟩
    ∧ ((Hole.update k dt h).groundBodies 2).pos
        = ⟨(Hole.update k dt h).posX, -(groundThickness / 2),
            (Hole.update k dt h).posZ - (Hole.update k dt h).radius - hugeConst⟩
    ∧ ((Hole.update k dt h).groundBodies 3).pos
        = ⟨(Hole.update k dt h).posX, -(groundThickness / 2),
            (Hole.update k dt h).posZ + (Hole.update k dt h).radius + hugeConst⟩
    ∧ hugeConst = groundSize / 2 :=
  ⟨rfl, rfl, rfl, rfl, by norm_num [hugeConst, groundSize]⟩

/-- C3: at every frame of the world loop the physics step consumes ring
segment placements derived from the hole position and radius current at
that step.  The step is the first phase of `World.update`, so the state it
consumes at frame n is `applyFrames f (frames.take n) (World.init op ids)`;
its rings always satisfy `ringsConsistent`, i.e. they equal the placements
`updatePhysicsHolePos` derives from that same state's hole position and
radius.  Moreover every `World.update` re-establishes the consistency from
the freshly moved hole state of that very frame. -/
theorem physics_step_rings_current :
    (∀ (f : ℝ → (ℕ → Vec3) → (ℕ → Vec3)) (frames : List (Keys × ℝ))
        (op : ℕ → Vec3) (ids : List ℕ) (n : ℕ),
        ringsConsistent
          ((applyFrames f (List.take n frames) (World.init op ids)).hole))
    ∧ ∀ (f : ℝ → (ℕ → Vec3) → (ℕ → Vec3)) (k : Keys) (dt : ℝ) (w : WorldState),
        ringsConsistent ((World.update f k dt w).hole) := by
  constructor
  · intro f frames op ids n
    exact ringsConsistent_applyFrames f (List.take n frames) (World.init op ids)
      (fun _ => rfl)
  · intro f k dt w
    rw [World.update_hole]
    exact ringsConsistent_update k dt w.hole

/-- C7: in every reachable frame state the mask's render order is strictly
below the ground's, which is strictly below the interior's (-1 < 0 < 1);
these are fixed submission priorities, independent of the camera. -/
theorem render_order_chain (f : ℝ → (ℕ → Vec3) → (ℕ → Vec3))
    (frames : List (Keys × ℝ)) (op : ℕ → Vec3) (ids : List ℕ) :
    (applyFrames f frames (World.init op ids)).hole.maskRenderOrder
        < (applyFrames f frames (World.init op ids)).hole.groundRenderOrder
    ∧ (applyFrames f frames (World.init op ids)).hole.groundRenderOrder
        < (applyFrames f frames (World.init op ids)).hole.interiorRenderOrder := by
  have hc := applyFrames_holeConsts f frames (World.init op ids)
  have hm : (applyFrames f frames (World.init op ids)).hole.maskRenderOrder
      = (-1 : ℤ) := congrArg (fun t => t.2.1) hc
  have hg : (applyFrames f frames (World.init op ids)).hole.groundRenderOrder
      = (0 : ℤ) := congrArg (fun t => t.2.2.1) hc
  have hi : (applyFrames f frames (World.init op ids)).hole.interiorRenderOrder
      = (1 : ℤ) := congrArg (fun t => t.2.2.2.1) hc
  rw [hm, hg, hi]
  norm_num

/-- C8: across any two consecutive frames of a session the hole radius
never decreases (indeed no update ever changes it). -/
theorem radius_nondecreasing (f : ℝ → (ℕ → Vec3) → (ℕ → Vec3))
    (frames : List (Keys × ℝ)) (op : ℕ → Vec3) (ids : List ℕ) (n : ℕ) :
    (applyFrames f (List.take n frames) (World.init op ids)).hole.radius
      ≤ (applyFrames f (List.take (n + 1) frames) (World.init op ids)).hole.radius := by
  have h1 : (applyFrames f (List.take n frames) (World.init op ids)).hole.radius
      = initialRadius :=
    congrArg (fun t => t.1) (applyFrames_holeConsts f (List.take n frames) (World.init op ids))
  have h2 : (applyFrames f (List.take (n + 1) frames) (World.init op ids)).hole.radius
      = initialRadius :=
    congrArg (fun t => t.1) (applyFrames_holeConsts f (List.take (n + 1) frames) (World.init op ids))
  rw [h1, h2]

/-- C9: the delta time `Game.animate` forwards to `World.update` is capped
at 0.1 seconds, however much real time elapsed since the previous frame. -/
theorem animateDelta_le_cap (currentTime lastTime : ℝ) :
    animateDelta currentTime lastTime ≤ 1 / 10 :=
  min_le_right _ _

/-- C10: no operation modifies the hole radius: over any sequence of
`update` and `checkSwallow` calls the radius stays at its initial value
1.5, and with it the mask disk radius and interior cylinder radius fixed
at construction time. -/
theorem radius_constant (evs : List Ev) (op : ℕ → Vec3) (ids : List ℕ) :
    (applyEvents evs (World.init op ids)).hole.radius = 3 / 2
    ∧ (applyEvents evs (World.init op ids)).hole.maskRadius = 3 / 2
    ∧ (applyEvents evs (World.init op ids)).hole.interiorRadius = 3 / 2 := by
  have hc := applyEvents_holeConsts evs (World.init op ids)
  exact ⟨congrArg (fun t => t.1) hc, congrArg (fun t => t.2.2.2.2.1) hc,
    congrArg (fun t => t.2.2.2.2.2) hc⟩

/-- C4: after the velocity integration of every `Hole.update` — for every
key combination and every delta time — the magnitude of `currentSpeed` is
at most `maxSpeed`, which is 8 units per second. -/
theorem speed_capped (k : Keys) (dt : ℝ) (h : Hole) :
    length2 (Hole.update k dt h).currentSpeed ≤ maxSpeed ∧ maxSpeed = 8 :=
  ⟨handleInput_speed_le k dt h, rfl⟩

/-- C5: with no directional input and a session-reachable speed (magnitude
at most `maxSpeed`), each `Hole.update` lowers the speed magnitude by
exactly `friction * dt`, except that a magnitude smaller than
`friction * dt` is set to exactly zero; the new velocity is a nonnegative
multiple of the old one, so it never overshoots zero or reverses direction;
and starting from magnitude `maxSpeed` = 8 with friction 20, any run of
nonnegative input-free delta times accumulating to at least 0.4 seconds
ends with the velocity exactly zero. -/
theorem friction_decay :
    (∀ (h : Hole) (dt : ℝ), 0 ≤ dt → length2 h.currentSpeed ≤ maxSpeed →
      (length2 h.currentSpeed < friction * dt →
          (Hole.update noKeys dt h).currentSpeed = (0, 0))
      ∧ (friction * dt ≤ length2 h.currentSpeed →
          length2 (Hole.update noKeys dt h).currentSpeed
            = length2 h.currentSpeed - friction * dt)
      ∧ ∃ c : ℝ, 0 ≤ c ∧ (Hole.update noKeys dt h).currentSpeed
            = (c * h.currentSpeed.1, c * h.currentSpeed.2))
    ∧ ∀ (h : Hole) (dts : List ℝ), (∀ d ∈ dts, 0 ≤ d) →
        length2 h.currentSpeed = maxSpeed → 2 / 5 ≤ dts.sum →
        (applyNoInput dts h).currentSpeed = (0, 0) := by
  constructor
  · exact fun h dt hdt hle => update_noKeys_speed h dt hdt hle
  · intro h dts hpos hmax hsum
    have hlen := applyNoInput_length dts h hpos (le_of_eq hmax)
    rw [hmax] at hlen
    have hsum0 : 0 ≤ dts.sum := List.sum_nonneg hpos
    have hz : max 0 (maxSpeed - friction * dts.sum) = 0 :=
      max_eq_left (by norm_num [maxSpeed, friction]; linarith)
    rw [hz] at hlen
    exact length2_eq_zero hlen

/-- Witness for C5: a hole moving at speed (8, 0) loses exactly 2 units of
speed magnitude over one 0.1-second input-free update, and comes to an
exact standstill after four such updates totalling 0.4 seconds. -/
theorem friction_decay_witness :
    length2 (Hole.update noKeys (1 / 10) holeAtMax).currentSpeed
        = length2 holeAtMax.currentSpeed - friction * (1 / 10)
    ∧ (applyNoInput [1 / 10, 1 / 10, 1 / 10, 1 / 10] holeAtMax).currentSpeed
        = (0, 0) := by
  have h8 : length2 holeAtMax.currentSpeed = maxSpeed := by
    show length2 ((8 : ℝ), (0 : ℝ)) = maxSpeed
    unfold length2 maxSpeed
    rw [show (8 : ℝ) * 8 + 0 * 0 = 8 ^ 2 by norm_num,
      Real.sqrt_sq (by norm_num : (0 : ℝ) ≤ 8)]
  constructor
  · exact (friction_decay.1 holeAtMax (1 / 10) (by norm_num) (le_of_eq h8)).2.1
      (by rw [h8]; norm_num [maxSpeed, friction])
  · refine friction_decay.2 holeAtMax [1 / 10, 1 / 10, 1 / 10, 1 / 10] ?_ h8 ?_
    · intro d hd
      simp at hd
      rw [hd]
      norm_num
    · norm_num [List.sum_cons, List.sum_nil]

/-- C1: `checkSwallow` removes the object's body from the physics world and
its mesh from the scene exactly when the horizontal distance to the hole
centre plus the object radius 0.5 is strictly below the hole radius AND the
object's y is below -5; otherwise (in particular whenever the horizontal
distance plus the object radius equals the hole radius exactly) the state
is unchanged. -/
theorem checkSwallow_characterization (w : WorldState) (i : ℕ) :
    (swallowCond w i →
        (checkSwallow w i).bodies = w.bodies.erase i
        ∧ (checkSwallow w i).scene = w.scene.erase i)
    ∧ (¬ swallowCond w i → checkSwallow w i = w)
    ∧ (horizDist w i + objRadius = w.hole.radius → checkSwallow w i = w) := by
  refine ⟨?_, ?_, ?_⟩
  · rintro ⟨hc1, hc2⟩
    unfold checkSwallow
    rw [if_pos hc1, if_pos hc2]
    exact ⟨rfl, rfl⟩
  · intro hn
    unfold swallowCond at hn
    push_neg at hn
    unfold checkSwallow
    split_ifs with h1 h2
    · exact absurd h2 (not_lt.mpr (hn h1))
    · rfl
    · rfl
  · intro heq
    unfold checkSwallow
    rw [if_neg (by rw [heq]; exact lt_irrefl _)]

/-- Witness for C1: in a world with one object, id 0, resting at the hole
centre 6 units deep, `checkSwallow` erases the object from both the body
list and the scene list. -/
theorem checkSwallow_characterization_witness :
    (checkSwallow wDeep 0).bodies = wDeep.bodies.erase 0
    ∧ (checkSwallow wDeep 0).scene = wDeep.scene.erase 0 := by
  apply (checkSwallow_characterization wDeep 0).1
  constructor
  · have hd : horizDist wDeep 0 = 0 := by
      unfold horizDist wDeep World.init Hole.init Hole.updatePhysicsHolePos
      norm_num
    rw [hd]
    norm_num [objRadius, wDeep, World.init, Hole.init, Hole.updatePhysicsHolePos,
      initialRadius]
  · norm_num [wDeep, World.init]

/-- C6: removal of a swallowed object is idempotent: on an object whose
body and mesh are already gone, `checkSwallow` leaves the world unchanged
(the library removals are no-ops on absent elements), and running
`checkSwallow` twice equals running it once. -/
theorem checkSwallow_idempotent (w : WorldState) (i : ℕ) :
    (i ∉ w.bodies → i ∉ w.scene → checkSwallow w i = w)
    ∧ (w.bodies.Nodup → w.scene.Nodup →
        checkSwallow (checkSwallow w i) i = checkSwallow w i) :=
  ⟨checkSwallow_not_mem w i, checkSwallow_twice w i⟩

/-- Witness for C6: on the world whose lists are already empty the call is
a no-op, and on the one-object world a second call changes nothing. -/
theorem checkSwallow_idempotent_witness :
    checkSwallow wEmpty 0 = wEmpty
    ∧ checkSwallow (checkSwallow wDeep 0) 0 = checkSwallow wDeep 0 := by
  constructor
  · exact (checkSwallow_idempotent wEmpty 0).1 (by simp [wEmpty, World.init])
      (by simp [wEmpty, World.init])
  · exact (checkSwallow_idempotent wDeep 0).2 (by simp [wDeep, World.init])
      (by simp [wDeep, World.init])

end Claims

end HoleGame
